import Mathlib

/-!
Verification of the peerstocks derived-metrics core.

Shallow embedding of the Python sources:
  * `src/backend/main.py` — `eps_ttm_points` (quarter reconstruction, Q4
    derivation, rolling TTM window), `prices_last_days_with_eps_pe`
    (price/TTM alignment), `resolve_identifier_to_ticker`.
  * `src/ingest/update_stock_summary.py` — `calc_cagr`,
    `find_price_years_ago`, `get_last_n_annual_revenues`.
  * `src/ingest/fetch_stock_metadata.py` — `derive_sector_from_sic`.

Modelling conventions:
  * Python floats are modelled as exact rationals (`ℚ`); the one function
    that needs a real exponent (`calc_cagr`) is modelled over `ℝ`.
  * ISO date strings `"YYYY-MM-DD"` are modelled as natural numbers: for
    fixed-width numeric strings lexicographic string order coincides with
    numeric order, and the code only ever compares dates.
  * Python's `round(x, n)` (round-half-to-even on the decimal value) is
    modelled by `pyRoundQ` / `roundQ` below.
  * Code that can raise is modelled with `Except`; missing dict keys /
    `None` values are modelled with `Option`.
-/

/-- Python's `round` to an integer: round half to even (banker's rounding). -/
def pyRoundQ (x : ℚ) : ℤ :=
  if x - ⌊x⌋ = 1 / 2 then (if Even ⌊x⌋ then ⌊x⌋ else ⌊x⌋ + 1) else round x

/-- Python's `round(x, ndigits)` over exact rationals. -/
def roundQ (x : ℚ) (ndigits : ℕ) : ℚ :=
  (pyRoundQ (x * 10 ^ ndigits) : ℚ) / 10 ^ ndigits

/-! ## EPS choice (`choose_eps`, src/backend/main.py lines 323–327)

```python
def choose_eps(src):
    x = src.get("diluted_eps")
    if x is None:
        x = src.get("basic_eps")
    return None if x is None else float(x)
```
-/

def choose_eps (diluted_eps basic_eps : Option ℚ) : Option ℚ :=
  match diluted_eps with
  | some x => some x
  | none => basic_eps

/-! ## Sector classifier (`derive_sector_from_sic`, src/ingest/fetch_stock_metadata.py)

The input is the already-parsed 4-digit SIC code (`_parse_sic` result),
`none` when parsing failed.
-/

/-- `_in(i, lo, hi)` from the source: `lo <= i <= hi`. -/
def inR (i lo hi : ℤ) : Bool :=
  decide (lo ≤ i) && decide (i ≤ hi)

/-- `derive_sector_from_sic`, the ordered if-chain translated literally. -/
def derive_sector_from_sic (sic : Option ℤ) : Option String :=
  match sic with
  | none => none
  | some i =>
    if inR i 3570 3579 then some "Technology"
    else if inR i 3660 3699 then some "Technology"
    else if inR i 3670 3679 then some "Technology"
    else if inR i 7370 7379 then some "Technology"
    else if inR i 2830 2839 then some "HealthCare"
    else if inR i 3840 3851 then some "HealthCare"
    else if inR i 8000 8099 then some "HealthCare"
    else if inR i 4910 4999 then some "Utilities"
    else if inR i 1310 1389 || inR i 2900 2999 then some "Energy"
    else if inR i 6500 6799 then some "Real Estate"
    else if inR i 100 999 then some "Industrial"
    else if inR i 1000 1499 then some "Materials"
    else if inR i 1500 1799 then some "Industrial"
    else if inR i 2000 3999 then
      (if inR i 2000 2399 || inR i 2500 2599 || inR i 3000 3199 then some "Consumer"
       else some "Industrial")
    else if inR i 4000 4899 then some "Industrial"
    else if inR i 5000 5999 then some "Consumer"
    else if inR i 6000 6499 then some "Finance"
    else if inR i 7000 7999 then
      (if inR i 7800 7999 then some "Consumer" else some "Industrial")
    else if inR i 9100 9729 then some "Industrial"
    else none

/-- The same classifier, written per the spec's words as an ordered
(predicate, label) rule table — specific overrides first, broad fallbacks
after, nested sub-cases flattened into earlier rules. -/
def sicRules : List ((ℤ → Bool) × String) :=
  [ (fun i => inR i 3570 3579, "Technology")
  , (fun i => inR i 3660 3699, "Technology")
  , (fun i => inR i 3670 3679, "Technology")
  , (fun i => inR i 7370 7379, "Technology")
  , (fun i => inR i 2830 2839, "HealthCare")
  , (fun i => inR i 3840 3851, "HealthCare")
  , (fun i => inR i 8000 8099, "HealthCare")
  , (fun i => inR i 4910 4999, "Utilities")
  , (fun i => inR i 1310 1389 || inR i 2900 2999, "Energy")
  , (fun i => inR i 6500 6799, "Real Estate")
  , (fun i => inR i 100 999, "Industrial")
  , (fun i => inR i 1000 1499, "Materials")
  , (fun i => inR i 1500 1799, "Industrial")
  , (fun i => inR i 2000 3999 && (inR i 2000 2399 || inR i 2500 2599 || inR i 3000 3199), "Consumer")
  , (fun i => inR i 2000 3999, "Industrial")
  , (fun i => inR i 4000 4899, "Industrial")
  , (fun i => inR i 5000 5999, "Consumer")
  , (fun i => inR i 6000 6499, "Finance")
  , (fun i => inR i 7000 7999 && inR i 7800 7999, "Consumer")
  , (fun i => inR i 7000 7999, "Industrial")
  , (fun i => inR i 9100 9729, "Industrial") ]

/-- Top-to-bottom evaluation of an ordered rule list, first match wins. -/
def firstRule (rules : List ((ℤ → Bool) × String)) (i : ℤ) : Option String :=
  rules.findSome? fun r => if r.1 i then some r.2 else none

/-! ## `find_price_years_ago` (src/ingest/update_stock_summary.py lines 154–163)

```python
def find_price_years_ago(price_data, years):
    if not price_data:
        return None
    last_date = datetime.strptime(price_data[-1][0], "%Y-%m-%d")
    cutoff = last_date.replace(year=last_date.year - years)
    for date_str, price in reversed(price_data):
        date = datetime.strptime(date_str, "%Y-%m-%d")
        if date <= cutoff:
            return price
    return None
```

`date.replace(year=…)` validates the resulting calendar date and raises
`ValueError` when it does not exist (February 29 of a non-leap year).
-/

structure CalDate where
  year : ℤ
  month : ℕ
  day : ℕ
deriving Repr, DecidableEq

/-- Gregorian leap-year rule (as used by Python's `datetime`). -/
def isLeap (y : ℤ) : Bool :=
  (decide (y % 4 = 0) && decide (y % 100 ≠ 0)) || decide (y % 400 = 0)

def daysInMonth (y : ℤ) (m : ℕ) : ℕ :=
  if m = 2 then (if isLeap y then 29 else 28)
  else if m = 4 ∨ m = 6 ∨ m = 9 ∨ m = 11 then 30
  else 31

/-- `d.replace(year=y)`: keeps month/day, raises `ValueError` when the
resulting calendar date does not exist. -/
def dateReplaceYear (d : CalDate) (y : ℤ) : Except Unit CalDate :=
  if d.day ≤ daysInMonth y d.month then .ok { d with year := y } else .error ()

/-- Lexicographic `<=` on calendar dates (Python datetime comparison). -/
def dateLe (a b : CalDate) : Bool :=
  decide (a.year < b.year) ||
  (decide (a.year = b.year) &&
    (decide (a.month < b.month) ||
     (decide (a.month = b.month) && decide (a.day ≤ b.day))))

/-- `find_price_years_ago`; `.error ()` models the `ValueError` escaping. -/
def find_price_years_ago (price_data : List (CalDate × ℚ)) (years : ℤ) :
    Except Unit (Option ℚ) :=
  match price_data.getLast? with
  | none => .ok none
  | some (last_date, _) =>
    match dateReplaceYear last_date (last_date.year - years) with
    | .error e => .error e
    | .ok cutoff =>
      .ok ((price_data.reverse.find? fun pd => dateLe pd.1 cutoff).map Prod.snd)

/-! ## Quarter reconstruction and TTM window (`eps_ttm_points`, src/backend/main.py)

```python
    by_key[key] = s  # last one wins if duplicates
    years = sorted({y for (y, _) in by_key.keys()})
    for y in years:
        q_vals = []
        for p in ("Q1", "Q2", "Q3"):
            s = by_key.get((y, p))
            if not s: continue
            eps = choose_eps(s)
            if eps is None: continue
            quarters.append({"date": s["end_date"][:10], "eps": eps})
            q_vals.append(eps)
        if len(q_vals) == 3:
            fy = by_key.get((y, "FY"))
            if fy:
                fy_eps = choose_eps(fy)
                if fy_eps is not None:
                    q4_eps = fy_eps - sum(q_vals)  # no rounding here
                    quarters.append({"date": fy["end_date"][:10], "eps": q4_eps})
    quarters.sort(key=lambda r: r["date"])
    out, window, total = [], [], 0.0
    for q in quarters:
        window.append(q["eps"]); total += q["eps"]
        if len(window) > 4: total -= window.pop(0)
        if len(window) == 4:
            out.append({"date": q["date"], "eps_ttm": round(total, 2)})
```
-/

structure FiscalRecord where
  fiscal_year : ℤ
  fiscal_period : String
  end_date : ℕ
  diluted_eps : Option ℚ
  basic_eps : Option ℚ
deriving Repr, DecidableEq

structure QuarterPoint where
  date : ℕ
  eps : ℚ
deriving Repr, DecidableEq

structure TTMPoint where
  date : ℕ
  eps_ttm : ℚ
deriving Repr, DecidableEq

/-- The `by_key` dict: one record per (fiscal_year, fiscal_period), the last
hit winning on duplicates. -/
def by_key (hits : List FiscalRecord) (y : ℤ) (p : String) : Option FiscalRecord :=
  (hits.filter fun s => s.fiscal_year == y && s.fiscal_period == p).getLast?

/-- `sorted({y for (y, _) in by_key.keys()})`. -/
def year_list (hits : List FiscalRecord) : List ℤ :=
  ((hits.map (·.fiscal_year)).dedup).insertionSort (· ≤ ·)

/-- The chosen EPS of the record at `(y, p)`: `none` when the record is
absent or both EPS fields are null. -/
def qp_eps (bk : ℤ → String → Option FiscalRecord) (y : ℤ) (p : String) : Option ℚ :=
  (bk y p).bind fun s => choose_eps s.diluted_eps s.basic_eps

/-- One iteration of the `for p in ("Q1","Q2","Q3")` loop body: extends
(`quarters`-slice, `q_vals`) when the record exists and has a chosen EPS. -/
def q123_step (bk : ℤ → String → Option FiscalRecord) (y : ℤ)
    (acc : List QuarterPoint × List ℚ) (p : String) : List QuarterPoint × List ℚ :=
  match bk y p with
  | none => acc
  | some s =>
    match choose_eps s.diluted_eps s.basic_eps with
    | none => acc
    | some eps => (acc.1 ++ [⟨s.end_date, eps⟩], acc.2 ++ [eps])

/-- The Q1–Q3 loop: the quarter points appended for year `y` and the
collected `q_vals`. -/
def q123_points (bk : ℤ → String → Option FiscalRecord) (y : ℤ) :
    List QuarterPoint × List ℚ :=
  ["Q1", "Q2", "Q3"].foldl (q123_step bk y) ([], [])

/-- All quarter points contributed by year `y`: the reported Q1–Q3 points,
plus the derived Q4 point when `len(q_vals) == 3` and an FY record with a
chosen EPS exists (`q4_eps = fy_eps - sum(q_vals)`, no rounding). -/
def quarters_for_year (bk : ℤ → String → Option FiscalRecord) (y : ℤ) :
    List QuarterPoint :=
  let qs := q123_points bk y
  if qs.2.length = 3 then
    match bk y "FY" with
    | none => qs.1
    | some fy =>
      match choose_eps fy.diluted_eps fy.basic_eps with
      | none => qs.1
      | some fy_eps => qs.1 ++ [⟨fy.end_date, fy_eps - qs.2.sum⟩]
  else qs.1

/-- The full reconstructed quarter stream: per-year points concatenated over
the sorted year list, then stably sorted by date. -/
def build_quarters (hits : List FiscalRecord) : List QuarterPoint :=
  ((year_list hits).flatMap fun y => quarters_for_year (by_key hits) y).insertionSort
    (fun a b => a.date ≤ b.date)

/-- The rolling-window loop over the sorted quarter stream. -/
def ttm_loop (window : List ℚ) (total : ℚ) : List QuarterPoint → List TTMPoint
  | [] => []
  | q :: rest =>
    let window1 := window ++ [q.eps]
    let total1 := total + q.eps
    let window2 := if 4 < window1.length then window1.tail else window1
    let total2 := if 4 < window1.length then total1 - window1.headD 0 else total1
    (if window2.length = 4 then [⟨q.date, roundQ total2 2⟩] else []) ++
      ttm_loop window2 total2 rest

/-- The whole `eps_ttm_points` pipeline on the fetched records. -/
def eps_ttm_points (hits : List FiscalRecord) : List TTMPoint :=
  ttm_loop [] 0 (build_quarters hits)

/-- TTM emission per the spec's words: after each quarter, a TTM point is
emitted exactly when at least 4 quarters have accumulated, dated at the
newest quarter's date, with value `round` of the sum of the last 4 EPS
values (`rev_hist` is the already-seen EPS stream, newest first). -/
def ttm_spec (rev_hist : List ℚ) : List QuarterPoint → List TTMPoint
  | [] => []
  | q :: rest =>
    let rev := q.eps :: rev_hist
    (if 4 ≤ rev.length then [⟨q.date, roundQ (rev.take 4).sum 2⟩] else []) ++
      ttm_spec rev rest

/-! ## Price/TTM alignment (`prices_last_days_with_eps_pe`, src/backend/main.py)

```python
    p_idx = 0
    for eps in eps_points:
        d = eps["date"]
        while p_idx < len(prices) and prices[p_idx]["date"] < d:
            p_idx += 1
        if p_idx < len(prices):
            prices[p_idx]["eps"] = eps["eps_ttm"]
            prices[p_idx]["pe"] = prices[p_idx]["close"] / eps["eps_ttm"]
```

`close / eps_ttm` is unguarded: with `eps_ttm == 0.0` Python raises
`ZeroDivisionError`, modelled as `.error ()`.
-/

structure AnnPrice where
  date : ℕ
  close : ℚ
  eps : Option ℚ
  pe : Option ℚ
deriving Repr, DecidableEq

/-- The `while` loop: advance `p_idx` past all prices dated strictly before
`d`. -/
def skip_idx (prices : List AnnPrice) (d : ℕ) (i : ℕ) : ℕ :=
  if h : i < prices.length then
    if (prices.get ⟨i, h⟩).date < d then skip_idx prices d (i + 1) else i
  else i
termination_by prices.length - i
decreasing_by omega

/-- The `for eps in eps_points` loop, with the running price cursor. -/
def align_loop (prices : List AnnPrice) (p_idx : ℕ) :
    List TTMPoint → Except Unit (List AnnPrice)
  | [] => .ok prices
  | e :: rest =>
    let j := skip_idx prices e.date p_idx
    if hj : j < prices.length then
      let p := prices.get ⟨j, hj⟩
      if e.eps_ttm = 0 then .error ()
      else
        align_loop
          (prices.set j { p with eps := some e.eps_ttm, pe := some (p.close / e.eps_ttm) })
          j rest
    else align_loop prices j rest

/-- `prices_last_days_with_eps_pe` on already-fetched inputs: annotate the
ascending price list with the ascending TTM points. -/
def prices_with_eps_pe (prices : List (ℕ × ℚ)) (eps_points : List TTMPoint) :
    Except Unit (List AnnPrice) :=
  align_loop (prices.map fun p => ⟨p.1, p.2, none, none⟩) 0 eps_points

/-- Spec-side: index of the first price point whose date is on or after `d`. -/
def firstOnOrAfter (d : ℕ) : List AnnPrice → Option ℕ
  | [] => none
  | p :: ps => if d ≤ p.date then some 0 else (firstOnOrAfter d ps).map (· + 1)

/-- Spec-side: attach a TTM value to the price point at index `j`. -/
def annotate (ps : List AnnPrice) (j : ℕ) (v : ℚ) : List AnnPrice :=
  match ps.get? j with
  | none => ps
  | some p => ps.set j { p with eps := some v, pe := some (p.close / v) }

/-- Alignment per the spec's words: each TTM point attaches its eps/pe to
the first price point dated on or after the TTM date (at most one point),
and price points never targeted keep no eps/pe fields. -/
def align_spec (prices : List AnnPrice) (eps_points : List TTMPoint) : List AnnPrice :=
  eps_points.foldl
    (fun ps e =>
      match firstOnOrAfter e.date ps with
      | none => ps
      | some j => annotate ps j e.eps_ttm)
    prices

/-! ## `calc_cagr` (src/ingest/update_stock_summary.py lines 128–134)

```python
def calc_cagr(start, end, years):
    if start <= 0 or end <= 0 or years <= 0:
        return None
    try:
        return round((end / start)**(1 / years) - 1, 4) * 100
    except:
        return None
```

Modelled over `ℝ` (the exponent `1 / years` is a real power); for positive
arguments the arithmetic never raises, so the `except` arm is dead.
-/

open Classical in
/-- Python's integer `round` on a real value: round half to even. -/
noncomputable def pyRoundR (x : ℝ) : ℤ :=
  if x - ⌊x⌋ = 1 / 2 then (if Even ⌊x⌋ then ⌊x⌋ else ⌊x⌋ + 1) else round x

/-- Python's `round(x, ndigits)` on a real value. -/
noncomputable def roundR (x : ℝ) (ndigits : ℕ) : ℝ :=
  (pyRoundR (x * 10 ^ ndigits) : ℝ) / 10 ^ ndigits

open Classical in
/-- `calc_cagr` (the trailing argument plays Python's `end`). -/
noncomputable def calc_cagr (start e years : ℝ) : Option ℝ :=
  if start ≤ 0 ∨ e ≤ 0 ∨ years ≤ 0 then none
  else some (roundR ((e / start) ^ (1 / years) - 1) 4 * 100)

/-! ## `resolve_identifier_to_ticker` (src/backend/main.py lines 178–228)

The two OpenSearch queries are external collaborators; the embedding takes
their results (`exact`: the size-1 exact ticker term query, `name_hits`:
the company-name search) as inputs and models the resolution logic.
-/

structure MetaHit where
  ticker : String
  name : Option String
  active : Option Bool
deriving Repr, DecidableEq, Inhabited

inductive ResolveResult where
  | ok (ticker : String)
  | badRequest
  | notFound
  | ambiguous (candidates : List (String × Option String))
deriving Repr, DecidableEq

/-- Python's `str.lower()` on one character (ASCII case fold, which is all
ticker/company-name data exercises). -/
def pyLowerChar (c : Char) : Char :=
  if 'A' ≤ c ∧ c ≤ 'Z' then Char.ofNat (c.toNat + 32) else c

/-- Python's `str.lower()`. -/
def pyLower (s : String) : String :=
  ⟨s.data.map pyLowerChar⟩

/-- The resolution logic after the two queries, on the already-stripped
identifier `s` (`s = identifier.strip()` happens first in the source):
empty input → 400; exact ticker hit → its ticker; no name hits → 404;
unique full case-insensitive name match → its ticker; else unique active
hit → its ticker; else 409 with the full candidate list. -/
def resolve_identifier_to_ticker (s : String)
    (exact : List MetaHit) (name_hits : List MetaHit) : ResolveResult :=
  if s = "" then .badRequest
  else
    match exact with
    | h :: _ => .ok h.ticker
    | [] =>
      match name_hits with
      | [] => .notFound
      | _ :: _ =>
        let exact_name :=
          name_hits.filter fun h => pyLower (h.name.getD "") == pyLower s
        if exact_name.length = 1 then .ok (exact_name.headD default).ticker
        else
          let active_only := name_hits.filter fun h => h.active == some true
          if active_only.length = 1 then .ok (active_only.headD default).ticker
          else .ambiguous (name_hits.map fun h => (h.ticker, h.name))

/-! ## `get_last_n_annual_revenues` (src/ingest/update_stock_summary.py lines 250–290) -/

structure EarnDoc where
  fiscal_year : ℕ
  fiscal_period : String
  revenues : Option ℚ
deriving Repr, DecidableEq

/-- `revenues_by_year[y][p]`: the dict built from docs with numeric
revenue, later docs overwriting earlier ones. -/
def rev_by_year (docs : List EarnDoc) (y : ℕ) (p : String) : Option ℚ :=
  (docs.filterMap fun d =>
    match d.revenues with
    | none => none
    | some r =>
      if d.fiscal_year == y && d.fiscal_period.toUpper == p then some r else none).getLast?

/-- The keys of `revenues_by_year`: years contributing at least one numeric
revenue (each once). -/
def year_keys (docs : List EarnDoc) : List ℕ :=
  (docs.filterMap fun d => if d.revenues.isSome then some d.fiscal_year else none).dedup

/-- The per-year if/elif chain: `(year, revenue, estimated)` or skip. -/
def year_entry (P : String → Option ℚ) (y : ℕ) : Option (ℕ × ℚ × Bool) :=
  match P "FY" with
  | some fy => some (y, fy, false)
  | none =>
    match P "Q1", P "Q2", P "Q3" with
    | some q1, some q2, some q3 =>
      some (y, roundQ (q1 + q2 + q3 + (q1 + q2 + q3) / 3) 2, true)
    | some q1, some q2, none =>
      some (y, roundQ (q1 + q2 + ((q1 + q2) / 2) * 2) 2, true)
    | some q1, none, _ => some (y, roundQ (q1 * 4) 2, true)
    | none, _, _ => none

/-- `get_last_n_annual_revenues`: iterate years in descending order, build
`full_years`, sort ascending (years are distinct, so tuple sort is sort by
year), take the trailing `n` slice (`[-0:]` is the whole list). -/
def get_last_n_annual_revenues (docs : List EarnDoc) (n : ℕ) : List (ℕ × ℚ × Bool) :=
  let full_years := ((year_keys docs).insertionSort fun a b => b ≤ a).filterMap
    fun y => year_entry (rev_by_year docs y) y
  let hist := full_years.insertionSort fun a b => a.1 ≤ b.1
  if n = 0 then hist else hist.drop (hist.length - n)

/-- The per-year revenue figure per the claim's words: FY when present
(not estimated), else `(Q1+Q2+Q3)*4/3`, `(Q1+Q2)*2`, or `Q1*4` (estimated,
rounded to 2 decimals), else skip. -/
def year_entry_spec (P : String → Option ℚ) (y : ℕ) : Option (ℕ × ℚ × Bool) :=
  match P "FY" with
  | some fy => some (y, fy, false)
  | none =>
    match P "Q1", P "Q2", P "Q3" with
    | some q1, some q2, some q3 => some (y, roundQ ((q1 + q2 + q3) * 4 / 3) 2, true)
    | some q1, some q2, none => some (y, roundQ ((q1 + q2) * 2) 2, true)
    | some q1, none, _ => some (y, roundQ (q1 * 4) 2, true)
    | none, _, _ => none

/-- The overall result per the claim's words: the qualifying years in
ascending order, keeping only the most recent `n`. -/
def annual_revenues_spec (docs : List EarnDoc) (n : ℕ) : List (ℕ × ℚ × Bool) :=
  let asc := ((year_keys docs).insertionSort fun a b => a ≤ b).filterMap
    fun y => year_entry_spec (rev_by_year docs y) y
  asc.drop (asc.length - n)

/-! ## Theorems -/

/-- C4: the EPS value chosen for a quarterly record is the diluted EPS
whenever it is non-null, and otherwise the basic EPS. -/
theorem choose_eps_prefers_diluted :
    ∀ diluted_eps basic_eps : Option ℚ,
      choose_eps diluted_eps basic_eps =
        if diluted_eps.isSome then diluted_eps else basic_eps := by
  intro d b
  cases d <;> rfl

/-- Helper: the literal if-chain agrees with first-match evaluation of the
ordered rule table. -/
lemma sector_eq_firstRule (i : ℤ) :
    derive_sector_from_sic (some i) = firstRule sicRules i := by
  simp only [derive_sector_from_sic, firstRule, sicRules, List.findSome?_cons]
  by_cases h1 : inR i 3570 3579 <;> simp only [h1, ite_true, ite_false, Bool.false_eq_true] <;>
  by_cases h2 : inR i 3660 3699 <;> simp only [h2, ite_true, ite_false, Bool.false_eq_true] <;>
  by_cases h3 : inR i 3670 3679 <;> simp only [h3, ite_true, ite_false, Bool.false_eq_true] <;>
  by_cases h4 : inR i 7370 7379 <;> simp only [h4, ite_true, ite_false, Bool.false_eq_true] <;>
  by_cases h5 : inR i 2830 2839 <;> simp only [h5, ite_true, ite_false, Bool.false_eq_true] <;>
  by_cases h6 : inR i 3840 3851 <;> simp only [h6, ite_true, ite_false, Bool.false_eq_true] <;>
  by_cases h7 : inR i 8000 8099 <;> simp only [h7, ite_true, ite_false, Bool.false_eq_true] <;>
  by_cases h8 : inR i 4910 4999 <;> simp only [h8, ite_true, ite_false, Bool.false_eq_true] <;>
  by_cases h9 : inR i 1310 1389 || inR i 2900 2999 <;>
    simp only [h9, ite_true, ite_false, Bool.false_eq_true] <;>
  by_cases h10 : inR i 6500 6799 <;> simp only [h10, ite_true, ite_false, Bool.false_eq_true] <;>
  by_cases h11 : inR i 100 999 <;> simp only [h11, ite_true, ite_false, Bool.false_eq_true] <;>
  by_cases h12 : inR i 1000 1499 <;> simp only [h12, ite_true, ite_false, Bool.false_eq_true] <;>
  by_cases h13 : inR i 1500 1799 <;> simp only [h13, ite_true, ite_false, Bool.false_eq_true] <;>
  by_cases h14 : inR i 2000 3999 <;> simp only [h14, ite_true, ite_false, Bool.false_eq_true] <;>
  by_cases h15 : inR i 2000 2399 || inR i 2500 2599 || inR i 3000 3199 <;>
    simp only [h15, Bool.and_true, Bool.and_false, ite_true, ite_false, Bool.false_eq_true,
      Bool.true_and, Bool.false_and] <;>
  by_cases h16 : inR i 4000 4899 <;> simp only [h16, ite_true, ite_false, Bool.false_eq_true] <;>
  by_cases h17 : inR i 5000 5999 <;> simp only [h17, ite_true, ite_false, Bool.false_eq_true] <;>
  by_cases h18 : inR i 6000 6499 <;> simp only [h18, ite_true, ite_false, Bool.false_eq_true] <;>
  by_cases h19 : inR i 7000 7999 <;> simp only [h19, ite_true, ite_false, Bool.false_eq_true] <;>
  by_cases h20 : inR i 7800 7999 <;>
    simp only [h20, Bool.and_true, Bool.and_false, ite_true, ite_false, Bool.false_eq_true,
      Bool.true_and, Bool.false_and] <;>
  by_cases h21 : inR i 9100 9729 <;>
    simp only [h21, ite_true, ite_false, Bool.false_eq_true] <;> rfl

/-- Helper: when every rule's predicate is false, first-match yields none. -/
lemma firstRule_none {i : ℤ} :
    ∀ rules : List ((ℤ → Bool) × String),
      (∀ r ∈ rules, r.1 i = false) → firstRule rules i = none := by
  intro rules
  induction rules with
  | nil => intro _; rfl
  | cons r rest ih =>
    intro h
    have hr : r.1 i = false := h r (List.mem_cons_self r rest)
    have hrest := ih fun r' hr' => h r' (List.mem_cons_of_mem r hr')
    simp [firstRule, List.findSome?_cons, hr] at hrest ⊢
    exact hrest

/-- C8: the sector classifier is the top-to-bottom evaluation of an ordered
rule list with the first matching rule winning; 7372 ↦ Technology,
2834 ↦ HealthCare, 4911 ↦ Utilities, and a code matching no rule (and an
unparseable code) yields no sector. -/
theorem sector_first_rule_wins :
    (∀ i : ℤ, derive_sector_from_sic (some i) = firstRule sicRules i) ∧
    derive_sector_from_sic (some 7372) = some "Technology" ∧
    derive_sector_from_sic (some 2834) = some "HealthCare" ∧
    derive_sector_from_sic (some 4911) = some "Utilities" ∧
    (∀ i : ℤ, (∀ r ∈ sicRules, r.1 i = false) → derive_sector_from_sic (some i) = none) ∧
    derive_sector_from_sic none = none := by
  refine ⟨sector_eq_firstRule, by decide, by decide, by decide, ?_, rfl⟩
  intro i hall
  rw [sector_eq_firstRule]
  exact firstRule_none sicRules hall

/-- C9: `find_price_years_ago` is not total — with a non-empty price series
whose most recent date is 2024-02-29, the 1-year lookback raises
`ValueError` (modelled `.error`) instead of returning a price or `None`. -/
theorem find_price_years_ago_feb29_raises :
    find_price_years_ago [(⟨2024, 2, 29⟩, 10)] 1 = .error () := by
  rfl

/-- Helper: one Q1–Q3 loop iteration appends exactly the chosen EPS (if any)
to `q_vals`. -/
lemma q123_step_snd (bk : ℤ → String → Option FiscalRecord) (y : ℤ)
    (acc : List QuarterPoint × List ℚ) (p : String) :
    (q123_step bk y acc p).2 = acc.2 ++ (qp_eps bk y p).toList := by
  unfold q123_step qp_eps
  cases hb : bk y p with
  | none => simp
  | some s => cases hc : choose_eps s.diluted_eps s.basic_eps <;> simp [hc]

/-- Helper: `q_vals` is the filter-map of the chosen EPS over Q1–Q3. -/
lemma q123_points_snd (bk : ℤ → String → Option FiscalRecord) (y : ℤ) :
    (q123_points bk y).2 = ["Q1", "Q2", "Q3"].filterMap (qp_eps bk y) := by
  simp only [q123_points, List.foldl_cons, List.foldl_nil]
  rw [q123_step_snd, q123_step_snd, q123_step_snd]
  cases h1 : qp_eps bk y "Q1" <;> cases h2 : qp_eps bk y "Q2" <;>
    cases h3 : qp_eps bk y "Q3" <;> simp [h1, h2, h3, List.filterMap_cons]

/-- C1: for a year whose Q1, Q2, Q3 records all have a chosen EPS and whose
FY record has a chosen EPS, a Q4 quarter point is synthesized with
`eps = eps_FY - (eps_Q1 + eps_Q2 + eps_Q3)`, exactly (no intermediate
rounding); when any of Q1–Q3 or FY is missing (absent record or null EPS),
no Q4 point is synthesized. -/
theorem q4_synthesized_iff_complete :
    (∀ (bk : ℤ → String → Option FiscalRecord) (y : ℤ)
       (s1 s2 s3 fy : FiscalRecord) (e1 e2 e3 f : ℚ),
      bk y "Q1" = some s1 → choose_eps s1.diluted_eps s1.basic_eps = some e1 →
      bk y "Q2" = some s2 → choose_eps s2.diluted_eps s2.basic_eps = some e2 →
      bk y "Q3" = some s3 → choose_eps s3.diluted_eps s3.basic_eps = some e3 →
      bk y "FY" = some fy → choose_eps fy.diluted_eps fy.basic_eps = some f →
      quarters_for_year bk y =
        [⟨s1.end_date, e1⟩, ⟨s2.end_date, e2⟩, ⟨s3.end_date, e3⟩,
         ⟨fy.end_date, f - (e1 + e2 + e3)⟩]) ∧
    (∀ (bk : ℤ → String → Option FiscalRecord) (y : ℤ),
      (qp_eps bk y "Q1" = none ∨ qp_eps bk y "Q2" = none ∨ qp_eps bk y "Q3" = none ∨
        (bk y "FY").bind (fun fy => choose_eps fy.diluted_eps fy.basic_eps) = none) →
      quarters_for_year bk y = (q123_points bk y).1) := by
  constructor
  · intro bk y s1 s2 s3 fy e1 e2 e3 f hb1 hc1 hb2 hc2 hb3 hc3 hbf hcf
    have hq : q123_points bk y = ([⟨s1.end_date, e1⟩, ⟨s2.end_date, e2⟩, ⟨s3.end_date, e3⟩],
        [e1, e2, e3]) := by
      simp only [q123_points, List.foldl_cons, List.foldl_nil, q123_step,
        hb1, hb2, hb3, hc1, hc2, hc3]
      rfl
    simp only [quarters_for_year, hq, List.length_cons, List.length_nil, if_pos, hbf, hcf]
    simp [List.sum_cons]
    ring_nf
  · intro bk y h
    rcases h with h1 | h2 | h3 | hfy
    · have hlen : (q123_points bk y).2.length ≠ 3 := by
        rw [q123_points_snd]
        simp only [List.filterMap_cons, List.filterMap_nil, h1]
        cases qp_eps bk y "Q2" <;> cases qp_eps bk y "Q3" <;> simp
      simp only [quarters_for_year]
      rw [if_neg hlen]
    · have hlen : (q123_points bk y).2.length ≠ 3 := by
        rw [q123_points_snd]
        simp only [List.filterMap_cons, List.filterMap_nil, h2]
        cases qp_eps bk y "Q1" <;> cases qp_eps bk y "Q3" <;> simp
      simp only [quarters_for_year]
      rw [if_neg hlen]
    · have hlen : (q123_points bk y).2.length ≠ 3 := by
        rw [q123_points_snd]
        simp only [List.filterMap_cons, List.filterMap_nil, h3]
        cases qp_eps bk y "Q1" <;> cases qp_eps bk y "Q2" <;> simp
      simp only [quarters_for_year]
      rw [if_neg hlen]
    · simp only [quarters_for_year]
      cases hb : bk y "FY" with
      | none => simp [hb]
      | some fy =>
        have : choose_eps fy.diluted_eps fy.basic_eps = none := by
          rw [hb] at hfy
          simpa using hfy
        simp [hb, this]

/-- Concrete record map used by the C1 witness. -/
def bkWitness : ℤ → String → Option FiscalRecord := fun y p =>
  if y = 2023 then
    if p = "Q1" then some ⟨2023, "Q1", 20230331, some 1, none⟩
    else if p = "Q2" then some ⟨2023, "Q2", 20230630, some (11/10), none⟩
    else if p = "Q3" then some ⟨2023, "Q3", 20230930, none, some (9/10)⟩
    else if p = "FY" then some ⟨2023, "FY", 20231231, some (43/10), none⟩
    else none
  else none

/-- Witness for C1: on a concrete complete year the derived Q4 EPS is
`4.3 - (1 + 1.1 + 0.9) = 1.3`. -/
theorem q4_synthesized_iff_complete_witness :
    quarters_for_year bkWitness 2023 =
      [⟨20230331, 1⟩, ⟨20230630, 11/10⟩, ⟨20230930, 9/10⟩,
       ⟨20231231, (43/10 : ℚ) - (1 + 11/10 + 9/10)⟩] :=
  q4_synthesized_iff_complete.1 bkWitness 2023 _ _ _ _ 1 (11/10) (9/10) (43/10)
    rfl rfl rfl rfl rfl rfl rfl rfl

/-- Helper: the rolling-window loop agrees with the last-4-sum emission rule
whenever its window/total state matches the already-seen EPS history
(`rev`, newest first): the window is the newest ≤4 values and the running
total is their sum. -/
lemma ttm_loop_eq_spec :
    ∀ (qs : List QuarterPoint) (rev window : List ℚ) (total : ℚ),
      window = (rev.take 4).reverse → total = window.sum →
      ttm_loop window total qs = ttm_spec rev qs := by
  intro qs
  induction qs with
  | nil => intro rev window total hw ht; rfl
  | cons q rest ih =>
    intro rev window total hw ht
    subst hw; subst ht
    rcases rev with _ | ⟨a, _ | ⟨b, _ | ⟨c, _ | ⟨d, t⟩⟩⟩⟩
    · simp only [ttm_loop, ttm_spec]
      norm_num
      exact ih [q.eps] _ _ rfl (by simp)
    · simp only [ttm_loop, ttm_spec]
      norm_num
      exact ih [q.eps, a] _ _ rfl (by simp)
    · simp only [ttm_loop, ttm_spec]
      norm_num
      exact ih [q.eps, a, b] _ _ rfl (by simp <;> ring)
    · simp only [ttm_loop, ttm_spec]
      norm_num
      refine ⟨by congr 1; ring, ?_⟩
      exact ih [q.eps, a, b, c] _ _ rfl (by simp <;> ring)
    · simp only [ttm_loop, ttm_spec]
      norm_num
      refine ⟨by congr 1; ring, ?_⟩
      exact ih (q.eps :: a :: b :: c :: d :: t) _ _ rfl (by simp <;> ring)

/-- Helper: with fewer than 4 quarters seen in total, nothing is emitted. -/
lemma ttm_spec_short :
    ∀ (qs : List QuarterPoint) (rev : List ℚ), qs.length + rev.length < 4 →
      ttm_spec rev qs = [] := by
  intro qs
  induction qs with
  | nil => intro rev _; rfl
  | cons q rest ih =>
    intro rev h
    have h1 : ¬ 4 ≤ (q.eps :: rev).length := by
      simp only [List.length_cons]
      simp only [List.length_cons] at h
      omega
    have h2 : ttm_spec (q.eps :: rev) rest = [] := by
      refine ih (q.eps :: rev) ?_
      simp only [List.length_cons]
      simp only [List.length_cons] at h
      omega
    simp only [ttm_spec]
    rw [if_neg h1, h2]
    rfl

/-- C2: on any quarter stream, a TTM point is emitted exactly when the FIFO
window of capacity 4 holds 4 quarterly EPS values — equivalently once at
least 4 quarters have accumulated — dated at the newest quarter's date with
`eps_ttm = round(sum of the 4 newest values, 2)`; nothing is emitted from
fewer than 4 quarters; and on EPS [1.0, 1.1, 0.9, 1.3] the single TTM point
is 4.3 dated at the 4th quarter's end date. -/
theorem ttm_emission_rule :
    (∀ qs : List QuarterPoint, ttm_loop [] 0 qs = ttm_spec [] qs) ∧
    (∀ qs : List QuarterPoint, qs.length < 4 → ttm_loop [] 0 qs = []) ∧
    ttm_loop [] 0
        [⟨20220331, 1⟩, ⟨20220630, 11/10⟩, ⟨20220930, 9/10⟩, ⟨20221231, 13/10⟩] =
      [⟨20221231, 43/10⟩] := by
  have hmain : ∀ qs, ttm_loop [] 0 qs = ttm_spec [] qs := fun qs =>
    ttm_loop_eq_spec qs [] [] 0 rfl rfl
  refine ⟨hmain, ?_, ?_⟩
  · intro qs h
    rw [hmain]
    exact ttm_spec_short qs [] (by simpa using h)
  · simp only [ttm_loop]
    norm_num [roundQ, pyRoundQ, round_eq]

/-- Witness for C2: a single quarter yields no TTM point. -/
theorem ttm_emission_rule_witness :
    ttm_loop [] 0 [⟨20220331, 1⟩] = [] :=
  ttm_emission_rule.2.1 [⟨20220331, 1⟩] (by decide)

/-- Witness for C8: code 1800 matches no rule and yields no sector. -/
theorem sector_first_rule_wins_witness :
    derive_sector_from_sic (some 1800) = none :=
  sector_first_rule_wins.2.2.2.2.1 1800 (by decide)

/-- C3 (against the claim): a TTM point with `eps_ttm = 0` that matches a
price point makes the aligner raise `ZeroDivisionError` (modelled
`.error ()`) while computing `close / eps_ttm`, instead of omitting `pe`. -/
theorem aligner_zero_eps_raises :
    prices_with_eps_pe [(20230403, 10)] [⟨20230331, 0⟩] = .error () := by
  have hskip : skip_idx [⟨20230403, 10, none, none⟩] 20230331 0 = 0 := by
    rw [skip_idx]
    norm_num
  simp only [prices_with_eps_pe, List.map_cons, List.map_nil, align_loop, hskip]
  norm_num

/-- C6: CAGR is defined only when start, end and years are all positive, in
which case it is `round((end/start)^(1/years) - 1, 4) * 100` — the ratio is
rounded to 4 decimals before scaling by 100; non-positive inputs yield no
value; and CAGR(100, 200, 3) = 25.99. -/
theorem calc_cagr_spec :
    (∀ start e years : ℝ, (start ≤ 0 ∨ e ≤ 0 ∨ years ≤ 0) →
      calc_cagr start e years = none) ∧
    (∀ start e years : ℝ, 0 < start → 0 < e → 0 < years →
      calc_cagr start e years =
        some (roundR ((e / start) ^ ((1 : ℝ) / years) - 1) 4 * 100)) ∧
    calc_cagr 100 200 3 = some (2599 / 100) := by
  refine ⟨?_, ?_, ?_⟩
  · intro s e y h
    rw [calc_cagr, if_pos h]
  · intro s e y hs he hy
    have h : ¬(s ≤ 0 ∨ e ≤ 0 ∨ y ≤ 0) := by push_neg; exact ⟨hs, he, hy⟩
    rw [calc_cagr, if_neg h]
  · have h1 : ¬((100 : ℝ) ≤ 0 ∨ (200 : ℝ) ≤ 0 ∨ (3 : ℝ) ≤ 0) := by norm_num
    rw [calc_cagr, if_neg h1]
    have h2 : (200 : ℝ) / 100 = 2 := by norm_num
    rw [h2]
    set x : ℝ := (2 : ℝ) ^ ((1 : ℝ) / 3) with hxdef
    have hx0 : (0 : ℝ) < x := Real.rpow_pos_of_pos (by norm_num) _
    have hx3 : x ^ (3 : ℕ) = 2 := by
      rw [hxdef, ← Real.rpow_natCast ((2 : ℝ) ^ ((1 : ℝ) / 3)) 3,
        ← Real.rpow_mul (by norm_num)]
      norm_num
    have hlb : (1.2599 : ℝ) < x := by
      nlinarith [hx3, hx0, sq_nonneg (x - 1.2599), sq_nonneg (x + 1.2599)]
    have hub : x < 1.25995 := by
      nlinarith [hx3, hx0, sq_nonneg (x - 1.25995), sq_nonneg (x + 1.25995)]
    have hfl : ⌊(x - 1) * 10 ^ 4⌋ = 2599 := by
      rw [Int.floor_eq_iff]
      constructor <;> push_cast <;> nlinarith
    have hnot : ¬((x - 1) * 10 ^ 4 - ⌊(x - 1) * 10 ^ 4⌋ = 1 / 2) := by
      rw [hfl]
      push_cast
      nlinarith
    have hrd : pyRoundR ((x - 1) * 10 ^ 4) = 2599 := by
      rw [pyRoundR, if_neg hnot, round_eq, Int.floor_eq_iff]
      constructor <;> push_cast <;> nlinarith
    rw [roundR, hrd]
    norm_num

/-- Witness for C6: a non-positive start yields no CAGR, and positive
inputs take the round-then-scale form. -/
theorem calc_cagr_spec_witness :
    calc_cagr (-1) 200 3 = none ∧
    calc_cagr 100 200 3 =
      some (roundR (((200 : ℝ) / 100) ^ ((1 : ℝ) / 3) - 1) 4 * 100) :=
  ⟨calc_cagr_spec.1 (-1) 200 3 (Or.inl (by norm_num)),
   calc_cagr_spec.2.1 100 200 3 (by norm_num) (by norm_num) (by norm_num)⟩

/-- C7 counterexample: with a single name candidate that fails both the
full case-insensitive name-match check and the active-flag check, the
resolver still fails with Ambiguous carrying exactly one candidate — not
more than one — refuting the claim that Ambiguous arises only when more
than one candidate remains. -/
theorem resolver_ambiguous_single_candidate :
    resolve_identifier_to_ticker "Apple" [] [⟨"AAPL", some "Apple Inc.", some false⟩] =
      .ambiguous [("AAPL", some "Apple Inc.")] ∧
    [("AAPL", some ("Apple Inc." : String))].length = 1 := by
  constructor
  · rfl
  · rfl

/-- C7 amended: if the name search returns no candidates, resolution fails
NotFound; and whenever both the unique full case-insensitive name match and
the unique active-flag check fail to single out a candidate, resolution
fails Ambiguous carrying the full ticker+name candidate list — even when
only one candidate remains. -/
theorem resolver_notfound_and_ambiguous :
    (∀ s : String, s ≠ "" →
      resolve_identifier_to_ticker s [] [] = .notFound) ∧
    (∀ (s : String) (name_hits : List MetaHit), s ≠ "" →
      name_hits ≠ [] →
      (name_hits.filter fun h => pyLower (h.name.getD "") == pyLower s).length ≠ 1 →
      (name_hits.filter fun h => h.active == some true).length ≠ 1 →
      resolve_identifier_to_ticker s [] name_hits =
        .ambiguous (name_hits.map fun h => (h.ticker, h.name))) := by
  constructor
  · intro s hne
    rw [resolve_identifier_to_ticker]
    simp only [if_neg hne]
  · intro s name_hits hne hnh hexact hactive
    rcases name_hits with _ | ⟨h0, rest⟩
    · exact absurd rfl hnh
    · rw [resolve_identifier_to_ticker]
      simp only [if_neg hne, if_neg hexact, if_neg hactive]

/-- Witness for C7 (amended): two active candidates named differently from
the query produce Ambiguous with both candidates listed. -/
theorem resolver_notfound_and_ambiguous_witness :
    resolve_identifier_to_ticker "Global"
      [] [⟨"GLB1", some "Global Industries", some true⟩,
          ⟨"GLB2", some "Global Partners", some true⟩] =
      .ambiguous [("GLB1", some "Global Industries"), ("GLB2", some "Global Partners")] :=
  resolver_notfound_and_ambiguous.2 "Global"
    [⟨"GLB1", some "Global Industries", some true⟩,
     ⟨"GLB2", some "Global Partners", some true⟩]
    (by decide) (by decide) (by decide) (by decide)

/-- Helper: the if/elif revenue chain computes exactly the claim's three
extrapolation shapes (`(Q1+Q2+Q3)*4/3`, `(Q1+Q2)*2`, `Q1*4`). -/
lemma year_entry_eq (P : String → Option ℚ) (y : ℕ) :
    year_entry P y = year_entry_spec P y := by
  rw [year_entry, year_entry_spec]
  cases hfy : P "FY" <;> cases h1 : P "Q1" <;> cases h2 : P "Q2" <;> cases h3 : P "Q3" <;>
    first
      | rfl
      | (simp only [Option.some.injEq, Prod.mk.injEq, true_and, and_true,
          eq_self_iff_true]
         congr 1
         ring)

/-- Helper: a per-year entry carries its own year in the first component. -/
lemma year_entry_spec_fst {P : String → Option ℚ} {y : ℕ} {e : ℕ × ℚ × Bool}
    (he : year_entry_spec P y = some e) : e.1 = y := by
  unfold year_entry_spec at he
  split at he
  · obtain rfl := Option.some.inj he
    rfl
  · split at he
    · obtain rfl := Option.some.inj he
      rfl
    · obtain rfl := Option.some.inj he
      rfl
    · obtain rfl := Option.some.inj he
      rfl
    · cases he

/-- C10: `get_last_n_annual_revenues` returns, for each qualifying year,
the FY revenue (estimated = false) when present, else the extrapolated
estimate (estimated = true) rounded to 2 decimals, skipping other shapes,
keeping the most recent `n` qualifying years in ascending year order. -/
theorem get_last_n_annual_revenues_spec :
    ∀ (docs : List EarnDoc) (n : ℕ), 0 < n →
      get_last_n_annual_revenues docs n = annual_revenues_spec docs n := by
  intro docs n hn
  simp only [get_last_n_annual_revenues, annual_revenues_spec, year_entry_eq,
    if_neg hn.ne']
  have hkey : (year_keys docs).Nodup := List.nodup_dedup _
  have hperm :
      List.Perm
        ((((year_keys docs).insertionSort fun a b => b ≤ a).filterMap
            (fun y => year_entry_spec (rev_by_year docs y) y)).insertionSort
          (fun a b => a.1 ≤ b.1))
        (((year_keys docs).insertionSort fun a b => a ≤ b).filterMap
          (fun y => year_entry_spec (rev_by_year docs y) y)) := by
    refine (List.perm_insertionSort _ _).trans (List.Perm.filterMap _ ?_)
    exact (List.perm_insertionSort _ _).trans (List.perm_insertionSort _ _).symm
  have hsorted_asc :
      (((year_keys docs).insertionSort fun a b => a ≤ b).filterMap
        (fun y => year_entry_spec (rev_by_year docs y) y)).Pairwise
        (fun a b => a.1 < b.1) := by
    have hks : ((year_keys docs).insertionSort fun a b => a ≤ b).Sorted (· ≤ ·) :=
      List.sorted_insertionSort _ _
    have hknd : ((year_keys docs).insertionSort fun a b => a ≤ b).Nodup :=
      (List.perm_insertionSort _ _).nodup_iff.mpr hkey
    have hklt := hks.lt_of_le hknd
    refine List.Pairwise.filterMap _ ?_ hklt
    intro a a' haa b hb b' hb'
    have hb1 : b.1 = a := year_entry_spec_fst hb
    have hb2 : b'.1 = a' := year_entry_spec_fst hb'
    rw [hb1, hb2]
    exact haa
  haveI : IsTotal (ℕ × ℚ × Bool) (fun a b => a.1 ≤ b.1) := ⟨fun a b => le_total a.1 b.1⟩
  haveI : IsTrans (ℕ × ℚ × Bool) (fun a b => a.1 ≤ b.1) :=
    ⟨fun _ _ _ hab hbc => le_trans hab hbc⟩
  haveI : IsAntisymm (ℕ × ℚ × Bool) (fun a b => a.1 < b.1) :=
    ⟨fun _ _ h1 h2 => (lt_asymm h1 h2).elim⟩
  have hsorted_lhs :
      ((((year_keys docs).insertionSort fun a b => b ≤ a).filterMap
          (fun y => year_entry_spec (rev_by_year docs y) y)).insertionSort
        (fun a b => a.1 ≤ b.1)).Pairwise (fun a b => a.1 < b.1) := by
    have h1 := List.sorted_insertionSort (fun a b : ℕ × ℚ × Bool => a.1 ≤ b.1)
      (((year_keys docs).insertionSort fun a b => b ≤ a).filterMap
        (fun y => year_entry_spec (rev_by_year docs y) y))
    have hne := (hperm.pairwise_iff
        (fun {x y} (h : x.1 ≠ y.1) => h.symm)).mpr
      (hsorted_asc.imp fun h => ne_of_lt h)
    exact (h1.and hne).imp fun h => lt_of_le_of_ne h.1 h.2
  have heq := List.eq_of_perm_of_sorted hperm hsorted_lhs hsorted_asc
  rw [heq]

/-- Witness for C10: a concrete earnings set (one FY year, one Q1-only
year) with the default n = 5. -/
theorem get_last_n_annual_revenues_spec_witness :
    get_last_n_annual_revenues
        [⟨2022, "FY", some 100⟩, ⟨2023, "Q1", some 30⟩] 5 =
      annual_revenues_spec [⟨2022, "FY", some 100⟩, ⟨2023, "Q1", some 30⟩] 5 :=
  get_last_n_annual_revenues_spec _ 5 (by norm_num)

/-- Helper: the price-cursor `while` loop never moves backwards, never
passes the end (from a valid start), skips only prices dated strictly
before `d`, and stops at a price dated on or after `d` when in range. -/
lemma skip_idx_props (prices : List AnnPrice) (d : ℕ) :
    ∀ n i, prices.length - i ≤ n →
      i ≤ skip_idx prices d i ∧
      (i ≤ prices.length → skip_idx prices d i ≤ prices.length) ∧
      (∀ k, i ≤ k → k < skip_idx prices d i →
        ∃ hk : k < prices.length, (prices.get ⟨k, hk⟩).date < d) ∧
      (∀ hj : skip_idx prices d i < prices.length,
        ¬ (prices.get ⟨skip_idx prices d i, hj⟩).date < d) := by
  intro n
  induction n with
  | zero =>
    intro i hi
    have hlen : prices.length ≤ i := by omega
    rw [skip_idx, dif_neg (by omega)]
    exact ⟨le_refl i, fun h => h, fun k hk1 hk2 => by omega,
      fun hj => by omega⟩
  | succ n ih =>
    intro i hi
    rw [skip_idx]
    by_cases h : i < prices.length
    · rw [dif_pos h]
      by_cases hd : (prices.get ⟨i, h⟩).date < d
      · rw [if_pos hd]
        obtain ⟨g1, g2, g3, g4⟩ := ih (i + 1) (by omega)
        refine ⟨by omega, fun _ => g2 (by omega), ?_, g4⟩
        intro k hk1 hk2
        by_cases hki : k = i
        · subst hki
          exact ⟨h, hd⟩
        · exact g3 k (by omega) hk2
      · rw [if_neg hd]
        exact ⟨le_refl i, fun h' => h', fun k hk1 hk2 => by omega, fun hj => hd⟩
    · rw [dif_neg h]
      exact ⟨le_refl i, fun h' => h', fun k hk1 hk2 => by omega, fun hj => absurd hj h⟩

/-- Helper: completeness of `firstOnOrAfter`, some-case. -/
lemma foa_eq_some_of :
    ∀ (ps : List AnnPrice) (d : ℕ) (j : ℕ) (hj : j < ps.length),
      d ≤ (ps.get ⟨j, hj⟩).date →
      (∀ k (hk : k < ps.length), k < j → (ps.get ⟨k, hk⟩).date < d) →
      firstOnOrAfter d ps = some j := by
  intro ps
  induction ps with
  | nil => intro d j hj; exact absurd hj (by simp)
  | cons p ps ih =>
    intro d j hj hdj hbefore
    cases j with
    | zero =>
      have hdp : d ≤ p.date := hdj
      rw [firstOnOrAfter, if_pos hdp]
    | succ j' =>
      have hp : p.date < d := hbefore 0 (by simp) (Nat.succ_pos j')
      rw [firstOnOrAfter, if_neg (by omega)]
      have : firstOnOrAfter d ps = some j' := by
        refine ih d j' (by simpa using hj) ?_ ?_
        · simpa using hdj
        · intro k hk hklt
          have := hbefore (k + 1) (by simpa using hk) (by omega)
          simpa using this
      rw [this]
      rfl

/-- Helper: completeness of `firstOnOrAfter`, none-case. -/
lemma foa_eq_none_of :
    ∀ (ps : List AnnPrice) (d : ℕ),
      (∀ k (hk : k < ps.length), (ps.get ⟨k, hk⟩).date < d) →
      firstOnOrAfter d ps = none := by
  intro ps
  induction ps with
  | nil => intro d _; rfl
  | cons p ps ih =>
    intro d hall
    have hp : p.date < d := hall 0 (by simp)
    rw [firstOnOrAfter, if_neg (by omega)]
    have : firstOnOrAfter d ps = none := by
      refine ih d ?_
      intro k hk
      have := hall (k + 1) (by simpa using hk)
      simpa using this
    rw [this]
    rfl

/-- Helper: one spec-side alignment step, no qualifying price point. -/
lemma align_spec_cons_none {prices : List AnnPrice} {e : TTMPoint} {rest : List TTMPoint}
    (hfoa : firstOnOrAfter e.date prices = none) :
    align_spec prices (e :: rest) = align_spec prices rest := by
  simp only [align_spec, List.foldl_cons, hfoa]

/-- Helper: one spec-side alignment step, attaching at index `j`. -/
lemma align_spec_cons_some {prices : List AnnPrice} {e : TTMPoint} {rest : List TTMPoint}
    {j : ℕ} (hfoa : firstOnOrAfter e.date prices = some j) :
    align_spec prices (e :: rest) = align_spec (annotate prices j e.eps_ttm) rest := by
  simp only [align_spec, List.foldl_cons, hfoa]

/-- Helper: the imperative two-pointer loop refines the per-TTM-point
first-on-or-after attachment rule, given ascending TTM dates, nonzero TTM
values, and the cursor invariant (everything before the cursor is dated
before every remaining TTM date). -/
lemma align_loop_eq_spec :
    ∀ (eps : List TTMPoint) (prices : List AnnPrice) (p_idx : ℕ),
      p_idx ≤ prices.length →
      (∀ e ∈ eps, ∀ k (hk : k < prices.length), k < p_idx →
        (prices.get ⟨k, hk⟩).date < e.date) →
      eps.Pairwise (fun a b => a.date ≤ b.date) →
      (∀ e ∈ eps, e.eps_ttm ≠ 0) →
      align_loop prices p_idx eps = .ok (align_spec prices eps) := by
  intro eps
  induction eps with
  | nil => intro prices p_idx _ _ _ _; rfl
  | cons e rest ih =>
    intro prices p_idx hple hinv hsort hnz
    obtain ⟨hge, hle, hmid, hstop⟩ :=
      skip_idx_props prices e.date (prices.length - p_idx) p_idx (le_refl _)
    have hjle : skip_idx prices e.date p_idx ≤ prices.length := hle hple
    have hsort' : rest.Pairwise (fun a b => a.date ≤ b.date) :=
      (List.pairwise_cons.mp hsort).2
    have hhead : ∀ e' ∈ rest, e.date ≤ e'.date := (List.pairwise_cons.mp hsort).1
    have hnz' : ∀ e' ∈ rest, e'.eps_ttm ≠ 0 :=
      fun e' he' => hnz e' (List.mem_cons_of_mem e he')
    simp only [align_loop]
    by_cases hjl : skip_idx prices e.date p_idx < prices.length
    · have hfoa : firstOnOrAfter e.date prices = some (skip_idx prices e.date p_idx) := by
        refine foa_eq_some_of prices e.date _ hjl (not_lt.mp (hstop hjl)) ?_
        intro k hk hklt
        by_cases hkp : k < p_idx
        · exact hinv e (List.mem_cons_self e rest) k hk hkp
        · obtain ⟨hk', hd⟩ := hmid k (not_lt.mp hkp) hklt
          exact hd
      rw [dif_pos hjl, if_neg (hnz e (List.mem_cons_self e rest)),
        align_spec_cons_some hfoa]
      have hann : annotate prices (skip_idx prices e.date p_idx) e.eps_ttm =
          prices.set (skip_idx prices e.date p_idx)
            { prices.get ⟨skip_idx prices e.date p_idx, hjl⟩ with
              eps := some e.eps_ttm,
              pe := some ((prices.get ⟨skip_idx prices e.date p_idx, hjl⟩).close /
                e.eps_ttm) } := by
        rw [annotate, List.get?_eq_get hjl]
      rw [hann]
      refine ih _ _ ?_ ?_ hsort' ?_
      · rw [List.length_set]
        exact hjle
      · intro e' he' k hk hkj
        have hk0 : k < prices.length := by
          rw [List.length_set] at hk
          exact hk
        have hneq : skip_idx prices e.date p_idx ≠ k := by omega
        rw [List.get_set_ne hneq]
        by_cases hkp : k < p_idx
        · exact hinv e' (List.mem_cons_of_mem e he') k hk0 hkp
        · obtain ⟨hk', hd⟩ := hmid k (not_lt.mp hkp) hkj
          exact lt_of_lt_of_le hd (hhead e' he')
      · exact hnz'
    · have hfoa : firstOnOrAfter e.date prices = none := by
        refine foa_eq_none_of prices e.date ?_
        intro k hk
        by_cases hkp : k < p_idx
        · exact hinv e (List.mem_cons_self e rest) k hk hkp
        · obtain ⟨hk', hd⟩ := hmid k (not_lt.mp hkp) (by omega)
          exact hd
      rw [dif_neg hjl, align_spec_cons_none hfoa]
      refine ih prices _ (by omega) ?_ hsort' hnz'
      intro e' he' k hk hkj
      by_cases hkp : k < p_idx
      · exact hinv e' (List.mem_cons_of_mem e he') k hk hkp
      · obtain ⟨hk', hd⟩ := hmid k (not_lt.mp hkp) (by omega)
        exact lt_of_lt_of_le hd (hhead e' he')

/-- C5: on an ascending daily price sequence and ascending TTM sequence
(with nonzero TTM values, which is what keeps the unguarded division from
raising), the aligner annotates exactly per the first-on-or-after rule:
each TTM point attaches its eps and pe to at most one price point — the
first whose date is on or after the TTM date, later points overwriting at
the same index — and price points never targeted carry no eps/pe fields. -/
theorem aligner_first_on_or_after :
    ∀ (prices : List (ℕ × ℚ)) (eps_points : List TTMPoint),
      (prices.map Prod.fst).Pairwise (· ≤ ·) →
      eps_points.Pairwise (fun a b => a.date ≤ b.date) →
      (∀ e ∈ eps_points, e.eps_ttm ≠ 0) →
      prices_with_eps_pe prices eps_points =
        .ok (align_spec (prices.map fun p => ⟨p.1, p.2, none, none⟩) eps_points) := by
  intro prices eps_points hp hs hnz
  exact align_loop_eq_spec eps_points _ 0 (Nat.zero_le _)
    (fun e _ k hk hk0 => absurd hk0 (Nat.not_lt_zero k)) hs hnz

/-- Witness for C5: one price point dated after one nonzero TTM point. -/
theorem aligner_first_on_or_after_witness :
    prices_with_eps_pe [(20230403, 10)] [⟨20230331, 2⟩] =
      .ok (align_spec [⟨20230403, 10, none, none⟩] [⟨20230331, 2⟩]) :=
  aligner_first_on_or_after [(20230403, 10)] [⟨20230331, 2⟩]
    (by simp) (by simp) (by norm_num)
